import Mathlib

/-!
# Verification of the Lead KPI pipeline (`Lead_KPI_Automation_V1.py`)

Shallow embedding of the pure transformation core of the script.

Modelling conventions:
* Python strings are modelled as `List Nat` of character code points
  (`pyStr` converts a Lean string literal to that form).
* Cell values that can be IEEE NaN / ±Infinity are modelled by `PVal`
  (`num q` for an ordinary finite value, plus `nan`, `pinf`, `ninf`);
  the IEEE behaviour of the few operations the pipeline applies to such
  values (division, scaling, rounding, `fillna`, `>=` comparison) is
  embedded exactly.
* Ordinary finite numeric cells are modelled as `ℚ`.  The data-frame rows
  below model the frames *after* the unconditional textual coercions of
  lines 119-121 and the id/month normalisation of lines 124-129 of the
  script (`to_num(...).fillna(0)` turns every such cell into a finite
  number, so `ℚ` is exact for them).
* Data frames are lists of rows; `groupByKey` models
  `DataFrame.groupby(keys).agg(...)` (pandas drops rows whose group key
  is null, and produces one output row per distinct key); `leftMerge`
  models `DataFrame.merge(..., how="left")` (every left row is kept; it
  is repeated once per matching right row, or kept once with null fill
  when there is no match).
-/

/-- Python whitespace (the ASCII whitespace characters recognised by
`str.strip`): space, tab, LF, VT, FF, CR. -/
def isWsChar (c : Nat) : Bool :=
  c = 32 || c = 9 || c = 10 || c = 11 || c = 12 || c = 13

/-- Python `str.upper` on one ASCII character (code-point model). -/
def pyUpperChar (c : Nat) : Nat :=
  if 97 ≤ c ∧ c ≤ 122 then c - 32 else c

/-- Python `str.lower` on one ASCII character (code-point model). -/
def pyLowerChar (c : Nat) : Nat :=
  if 65 ≤ c ∧ c ≤ 90 then c + 32 else c

/-- A Lean string literal as a list of code points. -/
def pyStr (s : String) : List Nat := s.data.map Char.toNat

/-- Python `str.upper` (code-point model). -/
def pyUpper (l : List Nat) : List Nat := l.map pyUpperChar

/-- Python `str.lower` (code-point model). -/
def pyLower (l : List Nat) : List Nat := l.map pyLowerChar

/-- Python `str.strip()`: remove leading and trailing whitespace. -/
def pyStrip (l : List Nat) : List Nat :=
  ((l.dropWhile isWsChar).reverse.dropWhile isWsChar).reverse

/-- Python `str.replace(" ", "_")`: every space character becomes an underscore. -/
def replaceSpace (l : List Nat) : List Nat :=
  l.map (fun c => if c = 32 then 95 else c)

/-- Worker for `re.sub(r"_+", "_", s)`: `prev` is the previously emitted
character; an underscore immediately following an emitted underscore is
dropped. -/
def collapseAux : Option Nat → List Nat → List Nat
  | _, [] => []
  | prev, c :: rest =>
    if c = 95 ∧ prev = some 95 then collapseAux prev rest
    else c :: collapseAux (some c) rest

/-- Python `re.sub(r"_+", "_", s)`: collapse every run of underscores to one. -/
def collapseUnderscores (l : List Nat) : List Nat := collapseAux none l

/-- The helper `clean_qai_id` on a (non-null) string, lines 51-56 of the script:
`str(x).upper().strip().replace(" ", "_")` then collapse `_+` runs. -/
def clean_qai_id_str (s : List Nat) : List Nat :=
  collapseUnderscores (replaceSpace (pyStrip (pyUpper s)))

/-- The helper `clean_qai_id`, lines 51-56: null maps to null, otherwise the string
is canonicalised by `clean_qai_id_str`. -/
def clean_qai_id : Option (List Nat) → Option (List Nat)
  | none => none
  | some s => some (clean_qai_id_str s)

/-- Python `str.startswith` (code-point model): second argument is the pattern. -/
def pyStartswith : List Nat → List Nat → Bool
  | _, [] => true
  | [], _ :: _ => false
  | c :: cs, p :: ps => c = p && pyStartswith cs ps

/-- Python `str.capitalize()` (ASCII model): first character uppercased, the
rest lowercased. -/
def pyCapitalize : List Nat → List Nat
  | [] => []
  | c :: rest => pyUpperChar c :: rest.map pyLowerChar

/-- The `months` table of `normalize_month` (line 65-69), in the
insertion order of the Python dict. -/
def monthTable : List (List Nat × List Nat) :=
  [(pyStr "jan", pyStr "January"), (pyStr "feb", pyStr "February"),
   (pyStr "mar", pyStr "March"), (pyStr "apr", pyStr "April"),
   (pyStr "may", pyStr "May"), (pyStr "jun", pyStr "June"),
   (pyStr "jul", pyStr "July"), (pyStr "aug", pyStr "August"),
   (pyStr "sep", pyStr "September"), (pyStr "oct", pyStr "October"),
   (pyStr "nov", pyStr "November"), (pyStr "dec", pyStr "December")]

/-- The helper `normalize_month` on a (non-null) string, lines 61-73:
strip + lowercase, first dict entry whose abbreviation the value starts
with wins, otherwise `value.capitalize()`. -/
def normalize_month_str (s : List Nat) : List Nat :=
  match monthTable.find? (fun e => pyStartswith (pyLower (pyStrip s)) e.1) with
  | some e => e.2
  | none => pyCapitalize (pyLower (pyStrip s))

/-- The helper `normalize_month`, lines 61-73 (null maps to null). -/
def normalize_month : Option (List Nat) → Option (List Nat)
  | none => none
  | some s => some (normalize_month_str s)

/-! ## IEEE-style cell values -/

/-- A float cell: a finite value, NaN, or ±Infinity. -/
inductive PVal where
  | num (q : ℚ)
  | nan
  | pinf
  | ninf
deriving DecidableEq

/-- IEEE division as produced by the pandas expression
`lead_contrib["Lead_Contribution"] / lead_contrib["Total_Month_Contribution"]`:
`0/0 = NaN`, `x/0 = ±Inf` for `x ≠ 0`.  (In the pipeline only
`num/num` — and `num/nan` when a merge key were unmatched — can occur;
the remaining IEEE cases are included for totality.) -/
def pvDiv : PVal → PVal → PVal
  | .num a, .num b =>
    if b = 0 then (if a = 0 then .nan else if 0 < a then .pinf else .ninf)
    else .num (a / b)
  | .pinf, .num b => if b < 0 then .ninf else .pinf
  | .ninf, .num b => if b < 0 then .pinf else .ninf
  | .num _, .pinf => .num 0
  | .num _, .ninf => .num 0
  | _, _ => .nan

/-- IEEE multiplication of a cell by a finite constant (`* 100`). -/
def pvMulQ : PVal → ℚ → PVal
  | .num a, c => .num (a * c)
  | .nan, _ => .nan
  | .pinf, c => if c = 0 then .nan else if 0 < c then .pinf else .ninf
  | .ninf, c => if c = 0 then .nan else if 0 < c then .ninf else .pinf

/-- Round half to even (the rounding of `numpy.round` / `Series.round`). -/
def roundHalfEven (q : ℚ) : ℤ :=
  if q - ⌊q⌋ < 1/2 then ⌊q⌋
  else if (1 : ℚ)/2 < q - ⌊q⌋ then ⌊q⌋ + 1
  else if ⌊q⌋ % 2 = 0 then ⌊q⌋ else ⌊q⌋ + 1

/-- Pandas `Series.round(2)` on a finite value: round to 2 decimal places. -/
def round2 (q : ℚ) : ℚ := (roundHalfEven (q * 100) : ℚ) / 100

/-- Pandas `Series.round(2)` on a cell: NaN and ±Inf round to themselves. -/
def pvRound2 : PVal → PVal
  | .num q => .num (round2 q)
  | x => x

/-- Pandas `Series.fillna(0)`: NaN becomes 0; ±Inf is *not* NA and is kept. -/
def pvFillna0 : PVal → PVal
  | .nan => .num 0
  | x => x

/-- IEEE `a <= x` as evaluated by Python's `x >= a` on a float `x`:
false on NaN, true on +Inf, false on -Inf. -/
def pvLeB (a : ℚ) : PVal → Bool
  | .num q => decide (a ≤ q)
  | .pinf => true
  | _ => false

/-- The tier function `contribution_to_rating`, lines 177-182 of the script. -/
def contribution_to_rating (pct : PVal) : ℕ :=
  if pvLeB 20 pct then 5
  else if pvLeB 16 pct then 4
  else if pvLeB 11 pct then 3
  else if pvLeB 5 pct then 2
  else 1

/-! ## Data model

Rows model the cleaned frames: `LeadRow` is a row of `lead_df` after the
numeric coercion of line 119 and the id/month cleaning of lines 124-128;
`PdrRow` is a row of `pdr_df` after lines 80-83 and 120-121; `AttRow` is
a row of `attendance_df` after lines 86-105, 126 and 129.  String cells
are code-point lists; a group-key cell that was null is `none`. -/

structure LeadRow where
  month : List Nat
  qid : Option (List Nat)
  lead : List Nat
  project : List Nat
  quality : ℚ
  timeliness : ℚ
  documentation : ℚ
  communication : ℚ
  discipline : ℚ
deriving DecidableEq

structure PdrRow where
  project : List Nat
  pdr : ℚ
  hour : ℚ
deriving DecidableEq

structure AttRow where
  month : List Nat
  qid : Option (List Nat)
  score : ℚ
  training : ℚ
deriving DecidableEq

/-- Pandas `df.groupby(keys, as_index=False).agg(...)`: pandas silently drops
rows whose group key is null, and emits one row per distinct key, whose
value is `agg` of the rows of that group. -/
def groupByKey {α κ β : Type} [DecidableEq κ]
    (key : α → Option κ) (agg : List α → β) (rows : List α) : List (κ × β) :=
  (rows.filterMap key).dedup.map
    (fun k => (k, agg (rows.filter (fun r => key r = some k))))

/-- Pandas `xs.merge(ys, on=key, how="left")`: every left row is kept; it is
repeated once per matching right row, or combined with `none` when no
right row matches. -/
def leftMerge {α β γ κ : Type} [DecidableEq κ]
    (ka : α → κ) (kb : β → κ) (f : α → Option β → γ)
    (xs : List α) (ys : List β) : List γ :=
  xs.flatMap (fun a =>
    match ys.filter (fun b => kb b = ka a) with
    | [] => [f a none]
    | ms => ms.map (fun b => f a (some b)))

/-- Mean of a list of cells (`"mean"` aggregation; groups are nonempty
whenever the aggregation is reached, so the `ℚ` division is exact). -/
def listMean (l : List ℚ) : ℚ := l.sum / l.length

/-- The (Month, QAI_ID) group key of a lead row (null id ⇒ no key). -/
def leadKey (r : LeadRow) : Option (List Nat × List Nat) :=
  r.qid.map (fun i => (r.month, i))

/-- Lexicographic comparison of code-point strings (Python `sorted`). -/
def lexLe : List Nat → List Nat → Bool
  | [], _ => true
  | _ :: _, [] => false
  | a :: as, b :: bs => if a < b then true else if b < a then false else lexLe as bs

def insertSorted (x : List Nat) : List (List Nat) → List (List Nat)
  | [] => [x]
  | y :: ys => if lexLe x y then x :: y :: ys else y :: insertSorted x ys

/-- Python `sorted` (insertion sort; total order up to `lexLe`). -/
def sortLex (l : List (List Nat)) : List (List Nat) := l.foldr insertSorted []

/-- Python `", ".join(sorted(set(x)))` of line 141 (`dropna` is a no-op here:
the modelled project cells are strings). -/
def joinProjects (names : List (List Nat)) : List Nat :=
  List.intercalate [44, 32] (sortLex names.dedup)

/-- The per-group aggregate of `monthly_core` (lines 132-143). -/
structure CoreAgg where
  quality : ℚ
  timeliness : ℚ
  documentation : ℚ
  communication : ℚ
  discipline : ℚ
  lead : List Nat
  projects : List Nat
deriving DecidableEq

def coreAgg (g : List LeadRow) : CoreAgg :=
  { quality := listMean (g.map (·.quality))
    timeliness := listMean (g.map (·.timeliness))
    documentation := listMean (g.map (·.documentation))
    communication := listMean (g.map (·.communication))
    discipline := listMean (g.map (·.discipline))
    lead := (g.map (·.lead)).headD []
    projects := joinProjects (g.map (·.project)) }

/-- The frame `monthly_core`, lines 132-143. -/
def monthly_core (L : List LeadRow) : List ((List Nat × List Nat) × CoreAgg) :=
  groupByKey leadKey coreAgg L

/-- The frame `project_count`, lines 146-150: number of distinct project names per
(Month, QAI_ID). -/
def project_count (L : List LeadRow) : List ((List Nat × List Nat) × ℕ) :=
  groupByKey leadKey (fun g => (g.map (·.project)).dedup.length) L

/-- A row of `lead_with_hours` (lines 153-160): the lead row together
with the `PDR` and `Project Hour` columns brought in by the merge, after
the `fillna(0)` of lines 158-159. -/
structure LWHRow where
  base : LeadRow
  pdr : ℚ
  hour : ℚ
deriving DecidableEq

/-- The column `Weighted_Contribution` (line 160). -/
def wcOf (r : LWHRow) : ℚ := r.pdr * r.hour

/-- The rows of `lead_with_hours` produced by one lead row: one per
matching `pdr_df` row, or a single zero-filled row when the project is
absent from `pdr_df`. -/
def lwhExpand (P : List PdrRow) (r : LeadRow) : List LWHRow :=
  match P.filter (fun p => p.project = r.project) with
  | [] => [⟨r, 0, 0⟩]
  | ms => ms.map (fun p => ⟨r, p.pdr, p.hour⟩)

/-- The frame `lead_with_hours`, lines 153-160. -/
def lead_with_hours (L : List LeadRow) (P : List PdrRow) : List LWHRow :=
  L.flatMap (lwhExpand P)

def lwhKey (r : LWHRow) : Option (List Nat × List Nat) := leadKey r.base

/-- The frame `lead_contrib` before the total/percentage columns (lines 162-166):
per (Month, QAI_ID) sum of `Weighted_Contribution`. -/
def lead_contrib_base (L : List LeadRow) (P : List PdrRow) :
    List ((List Nat × List Nat) × ℚ) :=
  groupByKey lwhKey (fun g => (g.map wcOf).sum) (lead_with_hours L P)

/-- The frame `total_contrib`, lines 167-171: per-month sum of `Lead_Contribution`. -/
def total_contrib (L : List LeadRow) (P : List PdrRow) : List (List Nat × ℚ) :=
  groupByKey (fun (e : (List Nat × List Nat) × ℚ) => some e.1.1)
    (fun g => (g.map (·.2)).sum) (lead_contrib_base L P)

/-- A row of `lead_contrib` after lines 172-184: the contribution sum,
the month total brought in by the merge, the percentage and the rating. -/
structure LCRow where
  month : List Nat
  qid : List Nat
  lc : ℚ
  tmc : PVal
  pct : PVal
  rating : ℕ
deriving DecidableEq

/-- Build one `lead_contrib` row from a `lead_contrib_base` entry and
the matched `total_contrib` entry (lines 172-184): the percentage is
`(lc / tmc * 100).round(2).fillna(0)` and the rating is
`contribution_to_rating` of that cell. -/
def mkLCRow (e : (List Nat × List Nat) × ℚ) (t : Option (List Nat × ℚ)) : LCRow :=
  let tmc : PVal := match t with
    | some tv => .num tv.2
    | none => .nan
  let pct := pvFillna0 (pvRound2 (pvMulQ (pvDiv (.num e.2) tmc) 100))
  { month := e.1.1, qid := e.1.2, lc := e.2, tmc := tmc, pct := pct,
    rating := contribution_to_rating pct }

/-- The frame `lead_contrib`, lines 162-184. -/
def lead_contrib (L : List LeadRow) (P : List PdrRow) : List LCRow :=
  leftMerge (fun e => e.1.1) (fun t => t.1) mkLCRow
    (lead_contrib_base L P) (total_contrib L P)

/-- The per-group aggregate of `attendance_agg` (lines 186-196). -/
structure AttAgg where
  attendance : ℚ
  training : ℚ
deriving DecidableEq

def attKey (r : AttRow) : Option (List Nat × List Nat) :=
  r.qid.map (fun i => (r.month, i))

/-- The frame `attendance_agg`, lines 186-196. -/
def attendance_agg (A : List AttRow) : List ((List Nat × List Nat) × AttAgg) :=
  groupByKey attKey
    (fun g => ⟨listMean (g.map (·.score)), listMean (g.map (·.training))⟩) A

/-- The `Final KPI Score` of lines 208-226: the eight fixed-weight sub-scores
summed and rounded to 2 decimal places. -/
def final_kpi_score (q t d c disc cr att tr : ℚ) : ℚ :=
  round2 (0.20 * q + 0.10 * t + 0.10 * d + 0.10 * c + 0.075 * disc
    + 0.15 * cr + 0.075 * att + 0.20 * tr)

/-- A row of `merged` after lines 198-226: core metrics, the four
zero-filled merge columns, the project count, the eight weighted
sub-scores and the final score. -/
structure MergedRow where
  month : List Nat
  qid : List Nat
  lead : List Nat
  projects : List Nat
  quality : ℚ
  timeliness : ℚ
  documentation : ℚ
  communication : ℚ
  discipline : ℚ
  contribPct : PVal
  contribRating : ℚ
  attendance : ℚ
  training : ℚ
  projectCount : Option ℕ
  scoreQuality : ℚ
  scoreTimeliness : ℚ
  scoreDocumentation : ℚ
  scoreCommunication : ℚ
  scoreDiscipline : ℚ
  scoreContribution : ℚ
  scoreAttendance : ℚ
  scoreTraining : ℚ
  finalKpi : ℚ
deriving DecidableEq

/-- Build one `merged` row (lines 198-226) from the `monthly_core` entry
and the optional matches of the three successive left merges.  Lines
202-205 coerce and zero-fill the four columns `Contribution_%`,
`Contribution_Rating`, `Attendance`, `Training and assessment
performance` (an absent match is NaN, filled to 0; a NaN percentage was
already filled at line 175; ±Inf is not NA and survives). -/
def mkMergedRow
    (e : (((List Nat × List Nat) × CoreAgg) × Option LCRow) × Option ((List Nat × List Nat) × AttAgg))
    (pc : Option ((List Nat × List Nat) × ℕ)) : MergedRow :=
  let k := e.1.1.1
  let core := e.1.1.2
  let contribPct : PVal := match e.1.2 with
    | some l => pvFillna0 l.pct
    | none => .num 0
  let contribRating : ℚ := match e.1.2 with
    | some l => (l.rating : ℚ)
    | none => 0
  let attendance : ℚ := match e.2 with
    | some a => a.2.attendance
    | none => 0
  let training : ℚ := match e.2 with
    | some a => a.2.training
    | none => 0
  { month := k.1, qid := k.2, lead := core.lead, projects := core.projects
    quality := core.quality, timeliness := core.timeliness
    documentation := core.documentation, communication := core.communication
    discipline := core.discipline
    contribPct := contribPct, contribRating := contribRating
    attendance := attendance, training := training
    projectCount := pc.map (·.2)
    scoreQuality := 0.20 * core.quality
    scoreTimeliness := 0.10 * core.timeliness
    scoreDocumentation := 0.10 * core.documentation
    scoreCommunication := 0.10 * core.communication
    scoreDiscipline := 0.075 * core.discipline
    scoreContribution := 0.15 * contribRating
    scoreAttendance := 0.075 * attendance
    scoreTraining := 0.20 * training
    finalKpi := final_kpi_score core.quality core.timeliness core.documentation
      core.communication core.discipline contribRating attendance training }

/-- The merge of line 198: `monthly_core` left-merged with
`lead_contrib` on (Month, QAI_ID). -/
def merged1 (L : List LeadRow) (P : List PdrRow) :
    List (((List Nat × List Nat) × CoreAgg) × Option LCRow) :=
  leftMerge (fun (e : (List Nat × List Nat) × CoreAgg) => e.1)
    (fun (l : LCRow) => (l.month, l.qid)) Prod.mk (monthly_core L) (lead_contrib L P)

/-- The merge of line 199: the above left-merged with `attendance_agg`. -/
def merged2 (L : List LeadRow) (P : List PdrRow) (A : List AttRow) :
    List ((((List Nat × List Nat) × CoreAgg) × Option LCRow)
      × Option ((List Nat × List Nat) × AttAgg)) :=
  leftMerge (fun e => e.1.1) (fun (a : (List Nat × List Nat) × AttAgg) => a.1)
    Prod.mk (merged1 L P) (attendance_agg A)

/-- The frame `merged`, lines 198-226: the successive left merges on
(Month, QAI_ID) followed by the fills and scoring columns. -/
def merged (L : List LeadRow) (P : List PdrRow) (A : List AttRow) : List MergedRow :=
  leftMerge (fun e => e.1.1.1) (fun (p : (List Nat × List Nat) × ℕ) => p.1)
    mkMergedRow (merged2 L P A) (project_count L)

/-- A row of `final_report` (lines 229-252): the selected and renamed
columns of `merged`, before the display stringification of line 254. -/
structure FRRow where
  month : List Nat
  qid : List Nat
  lead : List Nat
  projectName : List Nat
  projectCount : Option ℕ
  scoreQuality : ℚ
  scoreTimeliness : ℚ
  scoreDocumentation : ℚ
  scoreCommunication : ℚ
  scoreDiscipline : ℚ
  scoreContribution : ℚ
  scoreAttendance : ℚ
  scoreTraining : ℚ
  finalKpi : ℚ
deriving DecidableEq

/-- The frame `final_report`, lines 229-252. -/
def final_report (L : List LeadRow) (P : List PdrRow) (A : List AttRow) : List FRRow :=
  (merged L P A).map (fun m =>
    { month := m.month, qid := m.qid, lead := m.lead, projectName := m.projects
      projectCount := m.projectCount
      scoreQuality := m.scoreQuality, scoreTimeliness := m.scoreTimeliness
      scoreDocumentation := m.scoreDocumentation
      scoreCommunication := m.scoreCommunication
      scoreDiscipline := m.scoreDiscipline, scoreContribution := m.scoreContribution
      scoreAttendance := m.scoreAttendance, scoreTraining := m.scoreTraining
      finalKpi := m.finalKpi })

/-! ## Generic data-frame lemmas -/

/-- Lookup `find?` returns the head of `filter`. -/
theorem find?_eq_head?_filter {α : Type} (p : α → Bool) (l : List α) :
    l.find? p = (l.filter p).head? := by
  induction l with
  | nil => rfl
  | cons a l ih =>
    by_cases h : p a
    · rw [List.find?_cons_of_pos _ h, List.filter_cons_of_pos h]
      rfl
    · rw [List.find?_cons_of_neg _ h, List.filter_cons_of_neg h, ih]

/-- In a list whose keys are pairwise distinct, at most one row matches
a given key. -/
theorem length_filter_key_le_one {β κ : Type} [DecidableEq κ]
    (kb : β → κ) (ys : List β) (h : (ys.map kb).Nodup) (k : κ) :
    (ys.filter (fun b => kb b = k)).length ≤ 1 := by
  induction ys with
  | nil => simp
  | cons y ys ih =>
    simp only [List.map_cons, List.nodup_cons] at h
    by_cases hy : kb y = k
    · have hnil : ys.filter (fun b => kb b = k) = [] := by
        rw [List.filter_eq_nil_iff]
        intro b hb hkb
        apply h.1
        have hkb' : kb b = k := by simpa using hkb
        have hyy : kb y = kb b := by rw [hy, hkb']
        rw [hyy]
        exact List.mem_map_of_mem kb hb
      simp [List.filter_cons, hy, hnil]
    · simpa [List.filter_cons, hy] using ih h.2

/-- Counting rows of a left merge: if at most one right row matches any
key, every left row produces exactly one output row, and an output
attribute `g` that the combiner copies from the left attribute `h`
is distributed accordingly. -/
theorem leftMerge_countP {α β γ κ κ' : Type} [DecidableEq κ] [DecidableEq κ']
    (ka : α → κ) (kb : β → κ) (f : α → Option β → γ)
    (g : γ → κ') (h : α → κ')
    (hf : ∀ a b, g (f a b) = h a)
    (xs : List α) (ys : List β)
    (h1 : ∀ k, (ys.filter (fun b => kb b = k)).length ≤ 1) (k : κ') :
    (leftMerge ka kb f xs ys).countP (fun c => g c = k)
      = xs.countP (fun a => h a = k) := by
  induction xs with
  | nil => rfl
  | cons a xs ih =>
    have hexp : ((match ys.filter (fun b => kb b = ka a) with
        | [] => [f a none]
        | ms => ms.map (fun b => f a (some b))).countP (fun c => g c = k))
        = if h a = k then 1 else 0 := by
      rcases hms : ys.filter (fun b => kb b = ka a) with _ | ⟨b, rest⟩
      · simp [List.countP_cons, hf]
      · have hlen := h1 (ka a)
        rw [hms] at hlen
        have hrest : rest = [] := by
          cases rest with
          | nil => rfl
          | cons c cs => simp at hlen
        subst hrest
        simp [List.countP_cons, hf]
    rw [leftMerge, List.flatMap_cons, List.countP_append, ← leftMerge, ih,
      List.countP_cons, hexp]
    by_cases hha : h a = k <;> simp [hha] <;> try omega

/-- When at most one right row matches any key, a left merge is a map
with a `find?` lookup. -/
theorem leftMerge_eq_map {α β γ κ : Type} [DecidableEq κ]
    (ka : α → κ) (kb : β → κ) (f : α → Option β → γ)
    (xs : List α) (ys : List β)
    (h1 : ∀ k, (ys.filter (fun b => kb b = k)).length ≤ 1) :
    leftMerge ka kb f xs ys
      = xs.map (fun a => f a (ys.find? (fun b => kb b = ka a))) := by
  induction xs with
  | nil => rfl
  | cons a xs ih =>
    rw [leftMerge, List.flatMap_cons, ← leftMerge, ih, List.map_cons]
    have hone : (match ys.filter (fun b => kb b = ka a) with
        | [] => [f a none]
        | ms => ms.map (fun b => f a (some b)))
        = [f a (ys.find? (fun b => kb b = ka a))] := by
      rw [find?_eq_head?_filter]
      rcases hms : ys.filter (fun b => kb b = ka a) with _ | ⟨b, rest⟩
      · rfl
      · have hlen := h1 (ka a)
        rw [hms] at hlen
        have hrest : rest = [] := by
          cases rest with
          | nil => rfl
          | cons c cs => simp at hlen
        subst hrest
        rfl
    rw [hone]
    rfl

/-- In a list without duplicates, a member is counted once, a
non-member zero times. -/
theorem countP_key_of_nodup {κ : Type} [DecidableEq κ]
    (l : List κ) (h : l.Nodup) (k : κ) :
    l.countP (fun x => x = k) = if k ∈ l then 1 else 0 := by
  induction l with
  | nil => simp
  | cons a l ih =>
    simp only [List.nodup_cons] at h
    rw [List.countP_cons, ih h.2]
    by_cases hak : a = k
    · subst hak
      simp [h.1]
    · have hka : ¬k = a := fun h' => hak h'.symm
      by_cases hkl : k ∈ l <;> simp [hak, hkl, List.mem_cons, hka]

/-- Counting keys in a `groupByKey` result: a key occurring among the
rows occurs exactly once, any other key not at all. -/
theorem groupByKey_countP {α κ β : Type} [DecidableEq κ]
    (key : α → Option κ) (agg : List α → β) (rows : List α) (k : κ) :
    (groupByKey key agg rows).countP (fun e => e.1 = k)
      = if k ∈ rows.filterMap key then 1 else 0 := by
  rw [groupByKey, List.countP_map]
  have hcomp : ((fun (e : κ × β) => decide (e.1 = k)) ∘
      (fun k' => (k', agg (rows.filter (fun r => key r = some k')))))
      = fun x => decide (x = k) := rfl
  rw [hcomp, countP_key_of_nodup _ (List.nodup_dedup _)]
  by_cases hk : k ∈ rows.filterMap key <;> simp [hk]

/-- Keys are pairwise distinct in a `groupByKey` result. -/
theorem groupByKey_filter_le_one {α κ β : Type} [DecidableEq κ]
    (key : α → Option κ) (agg : List α → β) (rows : List α) (k : κ) :
    ((groupByKey key agg rows).filter (fun e => e.1 = k)).length ≤ 1 := by
  rw [← List.countP_eq_length_filter, groupByKey_countP]
  split <;> omega

/-- Membership in a `groupByKey` result determines the aggregate. -/
theorem mem_groupByKey {α κ β : Type} [DecidableEq κ]
    {key : α → Option κ} {agg : List α → β} {rows : List α}
    {e : κ × β} (he : e ∈ groupByKey key agg rows) :
    e.1 ∈ rows.filterMap key
      ∧ e.2 = agg (rows.filter (fun r => key r = some e.1)) := by
  rw [groupByKey] at he
  rcases List.mem_map.mp he with ⟨k, hk, hke⟩
  cases hke
  exact ⟨List.mem_dedup.mp hk, rfl⟩

/-- Lookup `find?` over a key-indexed map of a nodup key list. -/
theorem find?_map_key {κ β : Type} [DecidableEq κ]
    (f : κ → β) (ks : List κ) (hks : ks.Nodup) (k : κ) (hk : k ∈ ks) :
    (ks.map (fun k' => (k', f k'))).find? (fun e => e.1 = k)
      = some (k, f k) := by
  induction ks with
  | nil => cases hk
  | cons k1 ks ih =>
    simp only [List.nodup_cons] at hks
    by_cases h : k1 = k
    · subst h
      simp [List.find?_cons]
    · have hk' : k ∈ ks := by
        rcases List.mem_cons.mp hk with h' | h'
        · exact absurd h'.symm h
        · exact h'
      simpa [List.find?_cons, h] using ih hks.2 hk'

/-- Lookup `find?` of a key in a `groupByKey` result evaluates the aggregate of
that key's group. -/
theorem groupByKey_find? {α κ β : Type} [DecidableEq κ]
    (key : α → Option κ) (agg : List α → β) (rows : List α) (k : κ)
    (hk : k ∈ rows.filterMap key) :
    (groupByKey key agg rows).find? (fun e => e.1 = k)
      = some (k, agg (rows.filter (fun r => key r = some k))) := by
  rw [groupByKey]
  exact find?_map_key _ _ (List.nodup_dedup _) _ (List.mem_dedup.mpr hk)

/-! ## C2, C3: the contribution-rating step function -/

/-- C2 (counterexample): the claim asserts that an input percentage of
19.99 yields rating 2, but `contribution_to_rating` returns 4 there
(19.99 ≥ 16), so the claim is false at the concrete input 19.99. -/
theorem C2_counterexample : contribution_to_rating (.num (1999/100)) ≠ 2 := by
  norm_num [contribution_to_rating, pvLeB]

/-- C2 (amended): the exact boundary values of the tier function are
19.99 → 4 (not 2), 20.00 → 5, 15.99 → 3, 16.00 → 4. -/
theorem C2_amended :
    contribution_to_rating (.num (1999/100)) = 4
    ∧ contribution_to_rating (.num 20) = 5
    ∧ contribution_to_rating (.num (1599/100)) = 3
    ∧ contribution_to_rating (.num 16) = 4 := by
  refine ⟨?_, ?_, ?_, ?_⟩ <;> norm_num [contribution_to_rating, pvLeB]

/-- C3: on every real percentage input, the rating is the step function
with inclusive lower bounds where the highest matching tier wins:
`p ≥ 20 → 5`, `16 ≤ p < 20 → 4`, `11 ≤ p < 16 → 3`, `5 ≤ p < 11 → 2`,
and every other input — in particular every negative one — yields 1. -/
theorem C3_rating_step (p : ℚ) :
    (20 ≤ p → contribution_to_rating (.num p) = 5)
    ∧ (16 ≤ p → p < 20 → contribution_to_rating (.num p) = 4)
    ∧ (11 ≤ p → p < 16 → contribution_to_rating (.num p) = 3)
    ∧ (5 ≤ p → p < 11 → contribution_to_rating (.num p) = 2)
    ∧ (p < 5 → contribution_to_rating (.num p) = 1) := by
  refine ⟨fun h => ?_, fun h1 h2 => ?_, fun h1 h2 => ?_, fun h1 h2 => ?_,
    fun h => ?_⟩
  · simp [contribution_to_rating, pvLeB, h]
  · have h20 : ¬(20 : ℚ) ≤ p := by linarith
    simp [contribution_to_rating, pvLeB, h20, h1]
  · have h20 : ¬(20 : ℚ) ≤ p := by linarith
    have h16 : ¬(16 : ℚ) ≤ p := by linarith
    simp [contribution_to_rating, pvLeB, h20, h16, h1]
  · have h20 : ¬(20 : ℚ) ≤ p := by linarith
    have h16 : ¬(16 : ℚ) ≤ p := by linarith
    have h11 : ¬(11 : ℚ) ≤ p := by linarith
    simp [contribution_to_rating, pvLeB, h20, h16, h11, h1]
  · have h20 : ¬(20 : ℚ) ≤ p := by linarith
    have h16 : ¬(16 : ℚ) ≤ p := by linarith
    have h11 : ¬(11 : ℚ) ≤ p := by linarith
    have h5 : ¬(5 : ℚ) ≤ p := by linarith
    simp [contribution_to_rating, pvLeB, h20, h16, h11, h5]

/-- Witness for C3: the five tiers evaluated at 21, 17, 12, 7 and -3. -/
theorem C3_rating_step_witness :
    contribution_to_rating (.num 21) = 5
    ∧ contribution_to_rating (.num 17) = 4
    ∧ contribution_to_rating (.num 12) = 3
    ∧ contribution_to_rating (.num 7) = 2
    ∧ contribution_to_rating (.num (-3)) = 1 :=
  ⟨(C3_rating_step 21).1 (by norm_num),
   (C3_rating_step 17).2.1 (by norm_num) (by norm_num),
   (C3_rating_step 12).2.2.1 (by norm_num) (by norm_num),
   (C3_rating_step 7).2.2.2.1 (by norm_num) (by norm_num),
   (C3_rating_step (-3)).2.2.2.2 (by norm_num)⟩

/-! ## C9: month normalisation -/

/-- A whitespace character is left unchanged by `pyLowerChar`. -/
theorem pyLowerChar_of_ws (c : Nat) (h : isWsChar c = true) :
    pyLowerChar c = c := by
  simp [isWsChar] at h
  unfold pyLowerChar
  rw [if_neg (by omega)]

/-- An element reported by `getLast?` is a member. -/
theorem mem_of_getLast?_eq {α : Type} {l : List α} {a : α}
    (h : l.getLast? = some a) : a ∈ l := by
  have h' : l.reverse.head? = some a := by rw [List.head?_reverse, h]
  exact List.mem_reverse.mp (List.mem_of_mem_head? (h' ▸ Option.mem_def.mpr rfl))

/-- Dropping with `dropWhile` is the identity when the head does not satisfy the
predicate. -/
theorem dropWhile_eq_self_of_head {α : Type} {p : α → Bool} {l : List α}
    (h : ∀ c, l.head? = some c → p c = false) : l.dropWhile p = l := by
  cases l with
  | nil => rfl
  | cons a t =>
    have := h a rfl
    exact List.dropWhile_cons_of_neg (by simp [this])

/-- Python `str.strip()` is the identity on a string free of whitespace. -/
theorem pyStrip_eq_self_of_wsFree {s : List Nat}
    (hws : ∀ c ∈ s, isWsChar c = false) : pyStrip s = s := by
  unfold pyStrip
  rw [dropWhile_eq_self_of_head
      (fun c hc => hws c (List.mem_of_mem_head? (hc ▸ Option.mem_def.mpr rfl))),
    dropWhile_eq_self_of_head (fun c hc => by
      rw [List.head?_reverse] at hc
      exact hws c (mem_of_getLast?_eq hc)),
    List.reverse_reverse]

/-- A string whose lowercasing is whitespace-free is whitespace-free. -/
theorem wsFree_of_pyLower {s m : List Nat} (h : pyLower s = m)
    (hm : ∀ c ∈ m, isWsChar c = false) : ∀ c ∈ s, isWsChar c = false := by
  intro c hc
  by_contra hws
  have hws' : isWsChar c = true := by
    revert hws
    cases isWsChar c <;> simp
  have hmem : pyLowerChar c ∈ m := by
    rw [← h]
    exact List.mem_map_of_mem _ hc
  have hfalse := hm _ hmem
  rw [pyLowerChar_of_ws c hws'] at hfalse
  rw [hfalse] at hws'
  cases hws'

/-- The helper `normalize_month_str` on a string whose lowercasing is a given
whitespace-free literal is fully determined by the table lookup on that
literal. -/
theorem normalize_month_str_of_pyLower (s target out : List Nat)
    (hmws : ∀ c ∈ target, isWsChar c = false)
    (h : pyLower s = target)
    (hlook : (match monthTable.find? (fun e => pyStartswith target e.1) with
      | some e => e.2
      | none => pyCapitalize target) = out) :
    normalize_month_str s = out := by
  unfold normalize_month_str
  rw [pyStrip_eq_self_of_wsFree (wsFree_of_pyLower h hmws), h, hlook]

/-- Lowercasing twice is lowercasing once (ASCII). -/
theorem pyLowerChar_pyLowerChar (c : Nat) :
    pyLowerChar (pyLowerChar c) = pyLowerChar c := by
  unfold pyLowerChar
  split
  · rename_i h
    rw [if_neg (by omega)]
  · rfl

/-- Uppercasing after lowercasing is plain uppercasing (ASCII). -/
theorem pyUpperChar_pyLowerChar (c : Nat) :
    pyUpperChar (pyLowerChar c) = pyUpperChar c := by
  unfold pyUpperChar pyLowerChar
  by_cases h : 65 ≤ c ∧ c ≤ 90
  · rw [if_pos h, if_pos (by omega), if_neg (by omega)]
    omega
  · rw [if_neg h]

/-- Python `str.capitalize` ignores a prior lowercasing (ASCII). -/
theorem pyCapitalize_pyLower (l : List Nat) :
    pyCapitalize (pyLower l) = pyCapitalize l := by
  cases l with
  | nil => rfl
  | cons c rest =>
    show pyUpperChar (pyLowerChar c) :: (rest.map pyLowerChar).map pyLowerChar
      = pyUpperChar c :: rest.map pyLowerChar
    rw [pyUpperChar_pyLowerChar, List.map_map]
    congr 1
    exact List.map_congr_left (fun c _ => pyLowerChar_pyLowerChar c)

/-- C9: for each of the twelve 3-letter month prefixes, `normalize_month`
applied to the literal prefix in any letter case (any string whose
lowercasing is that prefix) returns the corresponding full English month
name; and on every input whose trimmed, lowercased form matches none of
the twelve prefixes it returns the capitalized form of the trimmed
string instead of failing. -/
theorem C9_normalize_month :
    (∀ s, pyLower s = pyStr "jan" → normalize_month (some s) = some (pyStr "January"))
    ∧ (∀ s, pyLower s = pyStr "feb" → normalize_month (some s) = some (pyStr "February"))
    ∧ (∀ s, pyLower s = pyStr "mar" → normalize_month (some s) = some (pyStr "March"))
    ∧ (∀ s, pyLower s = pyStr "apr" → normalize_month (some s) = some (pyStr "April"))
    ∧ (∀ s, pyLower s = pyStr "may" → normalize_month (some s) = some (pyStr "May"))
    ∧ (∀ s, pyLower s = pyStr "jun" → normalize_month (some s) = some (pyStr "June"))
    ∧ (∀ s, pyLower s = pyStr "jul" → normalize_month (some s) = some (pyStr "July"))
    ∧ (∀ s, pyLower s = pyStr "aug" → normalize_month (some s) = some (pyStr "August"))
    ∧ (∀ s, pyLower s = pyStr "sep" → normalize_month (some s) = some (pyStr "September"))
    ∧ (∀ s, pyLower s = pyStr "oct" → normalize_month (some s) = some (pyStr "October"))
    ∧ (∀ s, pyLower s = pyStr "nov" → normalize_month (some s) = some (pyStr "November"))
    ∧ (∀ s, pyLower s = pyStr "dec" → normalize_month (some s) = some (pyStr "December"))
    ∧ (∀ s, (∀ e ∈ monthTable, pyStartswith (pyLower (pyStrip s)) e.1 = false) →
        normalize_month (some s) = some (pyCapitalize (pyStrip s))) := by
  refine ⟨?_, ?_, ?_, ?_, ?_, ?_, ?_, ?_, ?_, ?_, ?_, ?_, ?_⟩
  · exact fun s h =>
      congrArg some (normalize_month_str_of_pyLower s _ _ (by decide) h (by decide))
  · exact fun s h =>
      congrArg some (normalize_month_str_of_pyLower s _ _ (by decide) h (by decide))
  · exact fun s h =>
      congrArg some (normalize_month_str_of_pyLower s _ _ (by decide) h (by decide))
  · exact fun s h =>
      congrArg some (normalize_month_str_of_pyLower s _ _ (by decide) h (by decide))
  · exact fun s h =>
      congrArg some (normalize_month_str_of_pyLower s _ _ (by decide) h (by decide))
  · exact fun s h =>
      congrArg some (normalize_month_str_of_pyLower s _ _ (by decide) h (by decide))
  · exact fun s h =>
      congrArg some (normalize_month_str_of_pyLower s _ _ (by decide) h (by decide))
  · exact fun s h =>
      congrArg some (normalize_month_str_of_pyLower s _ _ (by decide) h (by decide))
  · exact fun s h =>
      congrArg some (normalize_month_str_of_pyLower s _ _ (by decide) h (by decide))
  · exact fun s h =>
      congrArg some (normalize_month_str_of_pyLower s _ _ (by decide) h (by decide))
  · exact fun s h =>
      congrArg some (normalize_month_str_of_pyLower s _ _ (by decide) h (by decide))
  · exact fun s h =>
      congrArg some (normalize_month_str_of_pyLower s _ _ (by decide) h (by decide))
  · intro s h
    show some (normalize_month_str s) = _
    have hnone : monthTable.find?
        (fun e => pyStartswith (pyLower (pyStrip s)) e.1) = none :=
      List.find?_eq_none.mpr (fun e he => by rw [h e he]; simp)
    unfold normalize_month_str
    rw [hnone]
    exact congrArg some (pyCapitalize_pyLower (pyStrip s))

/-- Witness for C9: `"JAN"` and `"jan"` both normalise to `"January"`,
`"DeC"` normalises to `"December"`, and the non-month input `"2024"`
falls through to its capitalised (here unchanged) form. -/
theorem C9_normalize_month_witness :
    normalize_month (some (pyStr "JAN")) = some (pyStr "January")
    ∧ normalize_month (some (pyStr "jan")) = some (pyStr "January")
    ∧ normalize_month (some (pyStr "DeC")) = some (pyStr "December")
    ∧ normalize_month (some (pyStr "2024")) = some (pyStr "2024") :=
  ⟨C9_normalize_month.1 (pyStr "JAN") (by decide),
   C9_normalize_month.1 (pyStr "jan") (by decide),
   C9_normalize_month.2.2.2.2.2.2.2.2.2.2.2.1 (pyStr "DeC") (by decide),
   (C9_normalize_month.2.2.2.2.2.2.2.2.2.2.2.2 (pyStr "2024")
      (by decide)).trans (by decide)⟩

/-! ## C8, C10: identifier normalisation -/

/-- Elements of a collapsed list come from the input. -/
theorem mem_of_mem_collapseAux {c : Nat} :
    ∀ (prev : Option Nat) (l : List Nat), c ∈ collapseAux prev l → c ∈ l := by
  intro prev l
  induction l generalizing prev with
  | nil => intro h; exact absurd h (by simp [collapseAux])
  | cons a rest ih =>
    intro h
    rw [collapseAux] at h
    by_cases hc : a = 95 ∧ prev = some 95
    · rw [if_pos hc] at h
      exact List.mem_cons_of_mem _ (ih prev h)
    · rw [if_neg hc] at h
      rcases List.mem_cons.mp h with h' | h'
      · exact h' ▸ List.mem_cons_self a rest
      · exact List.mem_cons_of_mem _ (ih (some a) h')

theorem mem_of_mem_collapse {c : Nat} {l : List Nat}
    (h : c ∈ collapseUnderscores l) : c ∈ l :=
  mem_of_mem_collapseAux none l h

/-- Elements of a stripped list come from the input. -/
theorem mem_of_mem_pyStrip {c : Nat} {l : List Nat} (h : c ∈ pyStrip l) : c ∈ l := by
  unfold pyStrip at h
  rw [List.mem_reverse] at h
  have h1 := (List.dropWhile_sublist (l := (l.dropWhile isWsChar).reverse)
    isWsChar).subset h
  rw [List.mem_reverse] at h1
  exact (List.dropWhile_sublist isWsChar).subset h1

/-- The head of a stripped string is not whitespace. -/
theorem pyStrip_head_not_ws {l : List Nat} {c : Nat}
    (h : (pyStrip l).head? = some c) : isWsChar c = false := by
  unfold pyStrip at h
  rw [List.head?_reverse] at h
  rcases List.dropWhile_suffix (l := (l.dropWhile isWsChar).reverse) isWsChar
    with ⟨pre, hpre⟩
  have hlast : ((l.dropWhile isWsChar).reverse).getLast? = some c := by
    rw [← hpre, List.getLast?_append, h]
    rfl
  rw [List.getLast?_reverse] at hlast
  have hnot := List.head?_dropWhile_not isWsChar l
  rw [hlast] at hnot
  exact hnot

/-- The last element of a stripped string is not whitespace. -/
theorem pyStrip_last_not_ws {l : List Nat} {c : Nat}
    (h : (pyStrip l).getLast? = some c) : isWsChar c = false := by
  unfold pyStrip at h
  rw [List.getLast?_reverse] at h
  have hnot := List.head?_dropWhile_not isWsChar ((l.dropWhile isWsChar).reverse)
  rw [h] at hnot
  exact hnot

/-- Strip is the identity when both ends are not whitespace. -/
theorem pyStrip_eq_self_of_ends {s : List Nat}
    (hh : ∀ c, s.head? = some c → isWsChar c = false)
    (hl : ∀ c, s.getLast? = some c → isWsChar c = false) :
    pyStrip s = s := by
  unfold pyStrip
  rw [dropWhile_eq_self_of_head hh,
    dropWhile_eq_self_of_head (fun c hc => hl c (by rwa [List.head?_reverse] at hc)),
    List.reverse_reverse]

/-- Collapsing preserves the head. -/
theorem collapse_head? (m : List Nat) :
    (collapseUnderscores m).head? = m.head? := by
  cases m with
  | nil => rfl
  | cons c rest =>
    rw [collapseUnderscores, collapseAux, if_neg (by simp)]
    rfl

/-- An empty collapse result means an empty input or a pending
underscore. -/
theorem collapseAux_eq_nil {prev : Option Nat} {m : List Nat}
    (h : collapseAux prev m = []) : m = [] ∨ prev = some 95 := by
  cases m with
  | nil => exact Or.inl rfl
  | cons c rest =>
    rw [collapseAux] at h
    by_cases hc : c = 95 ∧ prev = some 95
    · exact Or.inr hc.2
    · rw [if_neg hc] at h
      exact absurd h (List.cons_ne_nil _ _)

/-- Collapsing preserves the last element or leaves an underscore
there (or empties the list). -/
theorem collapseAux_getLast? :
    ∀ (m : List Nat) (prev : Option Nat),
      (collapseAux prev m).getLast? = m.getLast?
      ∨ (collapseAux prev m).getLast? = some 95
      ∨ collapseAux prev m = [] := by
  intro m
  induction m with
  | nil => intro prev; exact Or.inr (Or.inr rfl)
  | cons c rest ih =>
    intro prev
    rw [collapseAux]
    by_cases hc : c = 95 ∧ prev = some 95
    · rw [if_pos hc]
      rcases ih prev with h | h | h
      · cases rest with
        | nil =>
          right; right
          have hres : collapseAux prev ([] : List Nat) = [] := rfl
          exact hres
        | cons d ds => exact Or.inl (by rw [h, List.getLast?_cons_cons])
      · exact Or.inr (Or.inl h)
      · exact Or.inr (Or.inr h)
    · rw [if_neg hc]
      rcases hv : collapseAux (some c) rest with _ | ⟨e, es⟩
      · rcases collapseAux_eq_nil hv with hrest | h95
        · subst hrest
          exact Or.inl rfl
        · right; left
          have hc95 : c = 95 := Option.some.inj h95
          subst hc95
          simp
      · rcases ih (some c) with h | h | h
        all_goals rw [hv] at h
        · cases rest with
          | nil => exact absurd hv (by simp [collapseAux])
          | cons d ds =>
            left
            rw [List.getLast?_cons_cons, h, List.getLast?_cons_cons]
        · right; left
          rw [List.getLast?_cons_cons, h]
        · exact absurd h (List.cons_ne_nil _ _)

theorem collapse_getLast? (m : List Nat) :
    (collapseUnderscores m).getLast? = m.getLast?
    ∨ (collapseUnderscores m).getLast? = some 95
    ∨ collapseUnderscores m = [] :=
  collapseAux_getLast? m none

/-- A collapsed list has no two adjacent underscores, and never starts
with an underscore when one is pending. -/
theorem collapseAux_chain :
    ∀ (m : List Nat) (prev : Option Nat),
      List.Chain' (fun a b => ¬(a = 95 ∧ b = 95)) (collapseAux prev m)
      ∧ (prev = some 95 → (collapseAux prev m).head? ≠ some 95) := by
  intro m
  induction m with
  | nil =>
    intro prev
    exact ⟨List.chain'_nil, fun _ => by simp [collapseAux]⟩
  | cons c rest ih =>
    intro prev
    rw [collapseAux]
    by_cases hc : c = 95 ∧ prev = some 95
    · rw [if_pos hc]
      exact ih prev
    · rw [if_neg hc]
      refine ⟨?_, ?_⟩
      · rw [List.chain'_cons']
        refine ⟨?_, (ih (some c)).1⟩
        intro y hy
        rintro ⟨hc95, hy95⟩
        rw [Option.mem_def] at hy
        have hhd := (ih (some c)).2 (by rw [hc95])
        rw [hy, hy95] at hhd
        exact hhd rfl
      · intro hprev
        simp only [List.head?_cons]
        intro heq
        exact hc ⟨Option.some.inj heq, hprev⟩

/-- Collapsing is the identity on a list with no two adjacent
underscores (given a compatible pending character). -/
theorem collapseAux_eq_self :
    ∀ (m : List Nat) (prev : Option Nat),
      List.Chain' (fun a b => ¬(a = 95 ∧ b = 95)) m →
      (∀ d, m.head? = some d → ¬(d = 95 ∧ prev = some 95)) →
      collapseAux prev m = m := by
  intro m
  induction m with
  | nil => intro prev _ _; rfl
  | cons c rest ih =>
    intro prev hch hd
    rw [collapseAux, if_neg (hd c rfl)]
    congr 1
    rw [List.chain'_cons'] at hch
    apply ih (some c) hch.2
    rintro d hdr ⟨hd95, hc95⟩
    exact (hch.1 d (Option.mem_def.mpr hdr)) ⟨Option.some.inj hc95, hd95⟩

/-- Collapsing is idempotent. -/
theorem collapse_collapse (m : List Nat) :
    collapseUnderscores (collapseUnderscores m) = collapseUnderscores m := by
  apply collapseAux_eq_self
  · exact (collapseAux_chain m none).1
  · rintro d _ ⟨_, hcon⟩
    exact absurd hcon (by simp)

/-- Uppercasing is idempotent (ASCII). -/
theorem pyUpperChar_idem (c : Nat) :
    pyUpperChar (pyUpperChar c) = pyUpperChar c := by
  unfold pyUpperChar
  by_cases h : 97 ≤ c ∧ c ≤ 122
  · rw [if_pos h, if_neg (by omega)]
  · rw [if_neg h, if_neg h]

/-- A character of a cleaned id is an underscore or an already
uppercased, non-space character of the stripped uppercased input. -/
theorem mem_clean_qai_id_str {c : Nat} {s : List Nat}
    (h : c ∈ clean_qai_id_str s) :
    c = 95 ∨ (c ∈ pyStrip (pyUpper s) ∧ c ≠ 32) := by
  unfold clean_qai_id_str at h
  have h1 := mem_of_mem_collapse h
  rcases List.mem_map.mp h1 with ⟨d, hd, hdc⟩
  by_cases hd32 : d = 32
  · left
    rw [← hdc, if_pos hd32]
  · right
    rw [← hdc, if_neg hd32]
    exact ⟨hd, hd32⟩

/-- Every character of a cleaned id is fixed by uppercasing. -/
theorem upperFixed_of_mem_clean {c : Nat} {s : List Nat}
    (h : c ∈ clean_qai_id_str s) : pyUpperChar c = c := by
  rcases mem_clean_qai_id_str h with h95 | ⟨hmem, _⟩
  · subst h95
    decide
  · rcases List.mem_map.mp (mem_of_mem_pyStrip hmem) with ⟨d, _, hdc⟩
    rw [← hdc]
    exact pyUpperChar_idem d

/-- No character of a cleaned id is a space. -/
theorem ne32_of_mem_clean {c : Nat} {s : List Nat}
    (h : c ∈ clean_qai_id_str s) : c ≠ 32 := by
  rcases mem_clean_qai_id_str h with h95 | ⟨_, h32⟩
  · subst h95
    decide
  · exact h32

/-- The head of a cleaned id is not whitespace. -/
theorem clean_head_not_ws {s : List Nat} {c : Nat}
    (h : (clean_qai_id_str s).head? = some c) : isWsChar c = false := by
  unfold clean_qai_id_str at h
  rw [collapse_head?] at h
  unfold replaceSpace at h
  rw [List.head?_map] at h
  cases hh : (pyStrip (pyUpper s)).head? with
  | none => rw [hh] at h; cases h
  | some d =>
    rw [hh] at h
    have hd := pyStrip_head_not_ws hh
    have hd32 : d ≠ 32 := by
      intro e
      subst e
      exact absurd hd (by decide)
    have hcd : c = d := by
      have h2 : (if d = 32 then 95 else d) = c := Option.some.inj h
      rw [if_neg hd32] at h2
      exact h2.symm
    rw [hcd]
    exact hd

/-- The last character of a cleaned id is not whitespace. -/
theorem clean_last_not_ws {s : List Nat} {c : Nat}
    (h : (clean_qai_id_str s).getLast? = some c) : isWsChar c = false := by
  unfold clean_qai_id_str at h
  rcases collapse_getLast? (replaceSpace (pyStrip (pyUpper s))) with hg | hg | hg
  · rw [hg] at h
    unfold replaceSpace at h
    rw [List.getLast?_map] at h
    cases hh : (pyStrip (pyUpper s)).getLast? with
    | none => rw [hh] at h; cases h
    | some d =>
      rw [hh] at h
      have hd := pyStrip_last_not_ws hh
      have hd32 : d ≠ 32 := by
        intro e
        subst e
        exact absurd hd (by decide)
      have hcd : c = d := by
        have h2 : (if d = 32 then 95 else d) = c := Option.some.inj h
        rw [if_neg hd32] at h2
        exact h2.symm
      rw [hcd]
      exact hd
  · have hc95 : 95 = c := Option.some.inj (hg.symm.trans h)
    rw [← hc95]
    decide
  · rw [hg] at h
    cases h

/-- Uppercasing is the identity on a cleaned id. -/
theorem pyUpper_clean (s : List Nat) :
    pyUpper (clean_qai_id_str s) = clean_qai_id_str s :=
  (List.map_congr_left (fun c hc =>
    (upperFixed_of_mem_clean hc).trans rfl)).trans (List.map_id _)

/-- Stripping is the identity on a cleaned id. -/
theorem pyStrip_clean (s : List Nat) :
    pyStrip (clean_qai_id_str s) = clean_qai_id_str s :=
  pyStrip_eq_self_of_ends (fun _ hc => clean_head_not_ws hc)
    (fun _ hc => clean_last_not_ws hc)

/-- Space replacement is the identity on a cleaned id. -/
theorem replaceSpace_clean (s : List Nat) :
    replaceSpace (clean_qai_id_str s) = clean_qai_id_str s :=
  (List.map_congr_left (fun c hc => by
    rw [if_neg (ne32_of_mem_clean hc)]
    rfl)).trans (List.map_id _)

/-- Underscore collapsing is the identity on a cleaned id. -/
theorem collapse_clean (s : List Nat) :
    collapseUnderscores (clean_qai_id_str s) = clean_qai_id_str s := by
  unfold clean_qai_id_str
  exact collapse_collapse _

/-- C10: the identifier normaliser is idempotent — re-cleaning an
already cleaned (non-null) `QAI_ID` never changes it. -/
theorem C10_clean_qai_id_idempotent (x : Option (List Nat)) (hx : x ≠ none) :
    clean_qai_id (clean_qai_id x) = clean_qai_id x := by
  cases x with
  | none => exact absurd rfl hx
  | some s =>
    show some (clean_qai_id_str (clean_qai_id_str s)) = some (clean_qai_id_str s)
    congr 1
    show collapseUnderscores (replaceSpace (pyStrip (pyUpper (clean_qai_id_str s))))
      = clean_qai_id_str s
    rw [pyUpper_clean, pyStrip_clean, replaceSpace_clean]
    exact collapse_clean s

/-- Witness for C10: re-cleaning the cleaned form of `" qai  001_ _x "`
(which is `"QAI_001_X"` up to the cleaning rules) changes nothing. -/
theorem C10_clean_qai_id_idempotent_witness :
    clean_qai_id (clean_qai_id (some (pyStr " qai  001_ _x ")))
      = clean_qai_id (some (pyStr " qai  001_ _x ")) :=
  C10_clean_qai_id_idempotent (some (pyStr " qai  001_ _x "))
    (Option.some_ne_none _)

/-! ## C8: the claimed normalisation equivalence -/

/-- Every whitespace character becomes an underscore (the spec/claim's
reading of the space replacement; the code only replaces `" "`). -/
def wsToUnderscore (l : List Nat) : List Nat :=
  l.map (fun c => if isWsChar c then 95 else c)

/-- The canonical form described by claim C8: uppercase, trimmed,
whitespace runs replaced by a single underscore and repeated underscores
collapsed to one.  Two raw ids "differ only in letter case, in
whitespace, or in the length of underscore runs" exactly when they have
the same such canonical form. -/
def idClaimCanon (s : List Nat) : List Nat :=
  collapseUnderscores (wsToUnderscore (pyStrip (pyUpper s)))

/-- C8 (counterexample): `"a\tb"` and `"a b"` differ only in whitespace
(tab vs space — same claim-canonical form), yet `clean_qai_id` maps them
to different values, because the code replaces only the space character,
not other whitespace. -/
theorem C8_counterexample :
    idClaimCanon (pyStr "a\tb") = idClaimCanon (pyStr "a b")
    ∧ clean_qai_id (some (pyStr "a\tb")) ≠ clean_qai_id (some (pyStr "a b")) := by
  constructor
  · decide
  · decide

/-- On inputs whose only whitespace is the space character, the code's
cleaning agrees with the claim's canonical form. -/
theorem clean_eq_canon {s : List Nat}
    (hs : ∀ c ∈ s, isWsChar c = true → c = 32) :
    clean_qai_id_str s = idClaimCanon s := by
  unfold clean_qai_id_str idClaimCanon replaceSpace wsToUnderscore
  congr 1
  apply List.map_congr_left
  intro c hc
  have hcs : isWsChar c = true → c = 32 := by
    rcases List.mem_map.mp (mem_of_mem_pyStrip hc) with ⟨d, hd, hdc⟩
    intro hws
    by_cases hdr : 97 ≤ d ∧ d ≤ 122
    · exfalso
      rw [← hdc] at hws
      unfold pyUpperChar at hws
      rw [if_pos hdr] at hws
      simp [isWsChar] at hws
      omega
    · have hcd : c = d := by
        rw [← hdc]
        unfold pyUpperChar
        rw [if_neg hdr]
      rw [hcd] at hws ⊢
      exact hs d hd hws
  by_cases hws : isWsChar c = true
  · rw [if_pos (hcs hws), if_pos hws]
  · have hws' : isWsChar c = false := by
      revert hws
      cases isWsChar c <;> simp
    have h32 : c ≠ 32 := by
      intro e
      rw [e] at hws'
      exact absurd hws' (by decide)
    rw [if_neg h32, if_neg (by rw [hws']; exact Bool.false_ne_true)]

/-- C8 (amended): for raw non-null ids whose whitespace consists only of
space characters, differing only in letter case, whitespace, or the
length of underscore runs (same claim-canonical form) implies an
identical cleaned value.  (The unrestricted claim fails on non-space
whitespace such as tab — see the counterexample.) -/
theorem C8_amended (x y : List Nat)
    (hx : ∀ c ∈ x, isWsChar c = true → c = 32)
    (hy : ∀ c ∈ y, isWsChar c = true → c = 32)
    (h : idClaimCanon x = idClaimCanon y) :
    clean_qai_id (some x) = clean_qai_id (some y) := by
  show some (clean_qai_id_str x) = some (clean_qai_id_str y)
  rw [clean_eq_canon hx, clean_eq_canon hy, h]

/-- Witness for C8: `"qai 001"` and `"QAI__001"` both clean to
`"QAI_001"`. -/
theorem C8_amended_witness :
    clean_qai_id (some (pyStr "qai 001")) = clean_qai_id (some (pyStr "QAI__001"))
    ∧ clean_qai_id (some (pyStr "qai 001")) = some (pyStr "QAI_001") :=
  ⟨C8_amended (pyStr "qai 001") (pyStr "QAI__001") (by decide) (by decide)
    (by decide), by decide⟩

/-! ## Pipeline characterisation lemmas -/

/-- The frame `lead_contrib` is a pointwise extension of `lead_contrib_base` (the
month totals have pairwise distinct keys). -/
theorem lead_contrib_eq_map (L : List LeadRow) (P : List PdrRow) :
    lead_contrib L P = (lead_contrib_base L P).map
      (fun e => mkLCRow e ((total_contrib L P).find? (fun t => t.1 = e.1.1))) :=
  leftMerge_eq_map _ _ _ _ _ (fun k => groupByKey_filter_le_one _ _ _ k)

/-- The `Total_Month_Contribution` of a month: the sum of the per-person
`Lead_Contribution` values of that month (the aggregate computed at
lines 167-171). -/
def monthTotal (L : List LeadRow) (P : List PdrRow) (m : List Nat) : ℚ :=
  (((lead_contrib_base L P).filter
    (fun e => (some e.1.1 : Option (List Nat)) = some m)).map (fun e => e.2)).sum

/-- Each `lead_contrib` row carries its month's total and the
percentage cell computed from its contribution and that total. -/
theorem lead_contrib_mem_spec {L : List LeadRow} {P : List PdrRow} {e : LCRow}
    (he : e ∈ lead_contrib L P) :
    e.tmc = .num (monthTotal L P e.month)
    ∧ e.pct = pvFillna0 (pvRound2 (pvMulQ
        (pvDiv (.num e.lc) (.num (monthTotal L P e.month))) 100)) := by
  rw [lead_contrib_eq_map] at he
  rcases List.mem_map.mp he with ⟨a, ha, hae⟩
  have hkey : a.1.1 ∈ (lead_contrib_base L P).filterMap
      (fun e => (some e.1.1 : Option (List Nat))) :=
    List.mem_filterMap.mpr ⟨a, ha, rfl⟩
  have hfind : (total_contrib L P).find? (fun t => t.1 = a.1.1)
      = some (a.1.1, monthTotal L P a.1.1) :=
    groupByKey_find? _ _ _ _ hkey
  rw [hfind] at hae
  subst hae
  exact ⟨rfl, rfl⟩

/-- The percentage cell as a function of the contribution and the month
total, with the claim-relevant case split: an ordinary rounded share
when the total is nonzero, a zero-filled NaN when both are zero, and a
surviving ±Infinity when only the total is zero. -/
theorem pct_cases (lc T : ℚ) :
    (T ≠ 0 → pvFillna0 (pvRound2 (pvMulQ (pvDiv (.num lc) (.num T)) 100))
        = .num (round2 (lc / T * 100)))
    ∧ (T = 0 → lc = 0 → pvFillna0 (pvRound2 (pvMulQ (pvDiv (.num lc) (.num T)) 100))
        = .num 0)
    ∧ (T = 0 → 0 < lc → pvFillna0 (pvRound2 (pvMulQ (pvDiv (.num lc) (.num T)) 100))
        = .pinf)
    ∧ (T = 0 → lc < 0 → pvFillna0 (pvRound2 (pvMulQ (pvDiv (.num lc) (.num T)) 100))
        = .ninf) := by
  refine ⟨fun hT => ?_, fun hT h0 => ?_, fun hT hpos => ?_, fun hT hneg => ?_⟩
  · simp [pvDiv, pvMulQ, pvRound2, pvFillna0, hT]
  · simp [pvDiv, pvMulQ, pvRound2, pvFillna0, hT, h0]
  · simp [pvDiv, pvMulQ, pvRound2, pvFillna0, hT, hpos, hpos.ne']
  · simp [pvDiv, pvMulQ, pvRound2, pvFillna0, hT, hneg, hneg.ne, not_lt.mpr hneg.le]

/-- Round-half-even moves a value by at most one half. -/
theorem roundHalfEven_err (x : ℚ) : |(roundHalfEven x : ℚ) - x| ≤ 1/2 := by
  unfold roundHalfEven
  have h1 := Int.floor_le x
  have h2 := Int.lt_floor_add_one x
  split_ifs <;> rw [abs_le] <;> constructor <;> push_cast <;> linarith

/-- Rounding to 2 decimal places moves a value by at most 1/200. -/
theorem round2_err (q : ℚ) : |round2 q - q| ≤ 1/200 := by
  unfold round2
  have h := roundHalfEven_err (q * 100)
  have heq : (roundHalfEven (q * 100) : ℚ) / 100 - q
      = ((roundHalfEven (q * 100) : ℚ) - q * 100) / 100 := by ring
  rw [heq, abs_div]
  rw [show |(100 : ℚ)| = 100 by norm_num]
  linarith

/-- Summing values that are pointwise within 1/200 keeps the sums within
`length / 200`. -/
theorem sum_sub_bound {α : Type} (f g : α → ℚ) :
    ∀ (l : List α), (∀ x ∈ l, |f x - g x| ≤ 1/200) →
      |(l.map f).sum - (l.map g).sum| ≤ l.length / 200 := by
  intro l
  induction l with
  | nil => intro _; simp
  | cons x rest ih =>
    intro h
    have hx := h x (List.mem_cons_self x rest)
    have hrest := ih (fun y hy => h y (List.mem_cons_of_mem x hy))
    have habs : |(f x + ((rest.map f).sum)) - (g x + ((rest.map g).sum))|
        ≤ |f x - g x| + |(rest.map f).sum - (rest.map g).sum| := by
      have : (f x + ((rest.map f).sum)) - (g x + ((rest.map g).sum))
          = (f x - g x) + ((rest.map f).sum - (rest.map g).sum) := by ring
      rw [this]
      exact abs_add _ _
    simp only [List.map_cons, List.sum_cons, List.length_cons]
    push_cast
    calc |(f x + (rest.map f).sum) - (g x + (rest.map g).sum)|
        ≤ |f x - g x| + |(rest.map f).sum - (rest.map g).sum| := habs
      _ ≤ 1/200 + rest.length / 200 := add_le_add hx hrest
      _ = (rest.length + 1) / 200 := by ring

/-- Dividing a list sum distributes over its elements. -/
theorem sum_map_share (T : ℚ) :
    ∀ (l : List ℚ), (l.map (fun x => x / T * 100)).sum = l.sum / T * 100 := by
  intro l
  induction l with
  | nil => simp
  | cons x rest ih =>
    simp only [List.map_cons, List.sum_cons, ih]
    ring

/-! ## C4: the Contribution_% cell -/

/-- Concrete input for C4: one month `[77]` with two people `[65]`,
`[66]`, whose weighted contributions are `5 * 1` and `-5 * 1` — the
month total is 0 while the individual contributions are not. -/
def c4L : List LeadRow :=
  [⟨[77], some [65], [76], [80], 1, 1, 1, 1, 1⟩,
   ⟨[77], some [66], [76], [81], 1, 1, 1, 1, 1⟩]

def c4P : List PdrRow := [⟨[80], 5, 1⟩, ⟨[81], -5, 1⟩]

/-- C4 (counterexample): the claim asserts that whenever
`Total_Month_Contribution` is 0 the resulting `Contribution_%` is
exactly 0 regardless of `Lead_Contribution`.  On the input above both
rows have month total 0, yet their percentage cells are `+Inf` and
`-Inf`: the division produces an infinity that `round(2)` keeps and
`fillna(0)` (which only replaces NaN) does not zero out. -/
theorem C4_counterexample :
    ((lead_contrib c4L c4P).map (fun e => (e.tmc, e.pct)))
      = [(.num 0, .pinf), (.num 0, .ninf)]
    ∧ (PVal.pinf ≠ .num 0 ∧ PVal.ninf ≠ .num 0) := by
  constructor
  · norm_num [lead_contrib, lead_contrib_base, total_contrib, groupByKey, leftMerge,
      lead_with_hours, lwhExpand, wcOf, mkLCRow, pvDiv, pvMulQ, pvRound2, pvFillna0,
      leadKey, lwhKey, c4L, c4P, List.dedup_cons_of_mem, List.dedup_cons_of_not_mem,
      List.filter_cons, List.filterMap_cons, List.flatMap_cons, List.find?_cons]
  · exact ⟨by decide, by decide⟩

/-- C4 (amended): every `lead_contrib` row carries its month total, and
`Contribution_%` equals `round(Lead_Contribution /
Total_Month_Contribution × 100, 2)` whenever the total is nonzero; when
the total is 0 the cell is 0 only if `Lead_Contribution` is also 0 (the
NaN case that `fillna(0)` replaces), while a nonzero `Lead_Contribution`
over a zero total yields `+Inf`/`-Inf`, which propagates into the
output. -/
theorem C4_amended (L : List LeadRow) (P : List PdrRow) (n : ℕ)
    (hn : n < (lead_contrib L P).length) (e : LCRow)
    (he : e = (lead_contrib L P).get ⟨n, hn⟩) :
    e.tmc = .num (monthTotal L P e.month)
    ∧ (monthTotal L P e.month ≠ 0 →
        e.pct = .num (round2 (e.lc / monthTotal L P e.month * 100)))
    ∧ (monthTotal L P e.month = 0 → e.lc = 0 → e.pct = .num 0)
    ∧ (monthTotal L P e.month = 0 → 0 < e.lc → e.pct = .pinf)
    ∧ (monthTotal L P e.month = 0 → e.lc < 0 → e.pct = .ninf) := by
  have hmem : e ∈ lead_contrib L P := by
    rw [he]
    exact List.get_mem _ _ hn
  obtain ⟨htmc, hpct⟩ := lead_contrib_mem_spec hmem
  have hc := pct_cases e.lc (monthTotal L P e.month)
  refine ⟨htmc, fun hT => ?_, fun hT h0 => ?_, fun hT hp => ?_, fun hT hm => ?_⟩
  · rw [hpct]
    exact hc.1 hT
  · rw [hpct]
    exact hc.2.1 hT h0
  · rw [hpct]
    exact hc.2.2.1 hT hp
  · rw [hpct]
    exact hc.2.2.2 hT hm

/-- Concrete input for the C4 witness: contributions `3 * 1` and
`1 * 1`, month total 4. -/
def c4wL : List LeadRow :=
  [⟨[77], some [65], [76], [80], 1, 1, 1, 1, 1⟩,
   ⟨[77], some [66], [76], [81], 1, 1, 1, 1, 1⟩]

def c4wP : List PdrRow := [⟨[80], 3, 1⟩, ⟨[81], 1, 1⟩]

theorem c4w_len : 0 < (lead_contrib c4wL c4wP).length := by decide

/-- Witness for C4 (amended): on a month with nonzero total, the first
row's percentage cell is the rounded share. -/
theorem C4_amended_witness :
    ((lead_contrib c4wL c4wP).get ⟨0, c4w_len⟩).pct
      = .num (round2 (((lead_contrib c4wL c4wP).get ⟨0, c4w_len⟩).lc
          / monthTotal c4wL c4wP ((lead_contrib c4wL c4wP).get ⟨0, c4w_len⟩).month
          * 100)) :=
  (C4_amended c4wL c4wP 0 c4w_len _ rfl).2.1 (by
    norm_num [monthTotal, lead_contrib, lead_contrib_base, total_contrib, groupByKey,
      leftMerge, lead_with_hours, lwhExpand, wcOf, mkLCRow, leadKey, lwhKey, c4wL, c4wP,
      List.dedup_cons_of_mem, List.dedup_cons_of_not_mem,
      List.filter_cons, List.filterMap_cons, List.flatMap_cons, List.find?_cons,
      List.get])

/-! ## C5: shares of a month sum to 100 -/

/-- The finite value carried by a cell (0 for NaN/±Inf; the cells this
is applied to are finite). -/
def pvalNum : PVal → ℚ
  | .num q => q
  | _ => 0

/-- A projection of the month-filtered `lead_contrib` rows equals the
corresponding projection of the month-filtered base entries. -/
theorem lcs_map_eq (L : List LeadRow) (P : List PdrRow) (m : List Nat)
    (v : LCRow → ℚ) (w : (List Nat × List Nat) × ℚ → ℚ)
    (hvw : ∀ a t, v (mkLCRow a t) = w a) :
    ((lead_contrib L P).filter (fun e => e.month = m)).map v
      = ((lead_contrib_base L P).filter
          (fun e => (some e.1.1 : Option (List Nat)) = some m)).map w := by
  rw [lead_contrib_eq_map]
  induction (lead_contrib_base L P) with
  | nil => rfl
  | cons a rest ih =>
    have hmk : (mkLCRow a ((total_contrib L P).find? (fun t => t.1 = a.1.1))).month
        = a.1.1 := rfl
    simp only [List.map_cons, List.filter_cons]
    by_cases ha : a.1.1 = m
    · rw [if_pos (decide_eq_true (hmk.trans ha)),
        if_pos (decide_eq_true (congrArg some ha)), List.map_cons,
        List.map_cons, hvw, ih]
    · rw [if_neg (fun h => ha (hmk.symm.trans (of_decide_eq_true h))),
        if_neg (fun h => ha (Option.some.inj (of_decide_eq_true h))), ih]

/-- C5: in every month whose `Total_Month_Contribution` is nonzero, the
total is exactly the sum of the per-person `Lead_Contribution` values,
the unrounded shares `lc / total × 100` sum to exactly 100, and the
published `Contribution_%` cells (each share rounded to 2 decimal
places) sum to 100 up to the accumulated rounding error of at most
1/200 per person. -/
theorem C5_contribution_sums (L : List LeadRow) (P : List PdrRow) (m : List Nat)
    (hT : monthTotal L P m ≠ 0) :
    (((lead_contrib L P).filter (fun e => e.month = m)).map (fun e => e.lc)).sum
      = monthTotal L P m
    ∧ (((lead_contrib L P).filter (fun e => e.month = m)).map
        (fun e => e.lc / monthTotal L P m * 100)).sum = 100
    ∧ |(((lead_contrib L P).filter (fun e => e.month = m)).map
        (fun e => pvalNum e.pct)).sum - 100|
      ≤ ((lead_contrib L P).filter (fun e => e.month = m)).length / 200 := by
  have h1 : (((lead_contrib L P).filter (fun e => e.month = m)).map
      (fun e => e.lc)).sum = monthTotal L P m := by
    rw [lcs_map_eq L P m (fun e => e.lc) (fun e => e.2) (fun a t => rfl)]
    rfl
  have h2 : (((lead_contrib L P).filter (fun e => e.month = m)).map
      (fun e => e.lc / monthTotal L P m * 100)).sum = 100 := by
    have hmm : ((lead_contrib L P).filter (fun e => e.month = m)).map
        (fun e => e.lc / monthTotal L P m * 100)
        = (((lead_contrib L P).filter (fun e => e.month = m)).map
            (fun e => e.lc)).map (fun x => x / monthTotal L P m * 100) := by
      rw [List.map_map]
      rfl
    rw [hmm, sum_map_share, h1, div_self hT, one_mul]
  refine ⟨h1, h2, ?_⟩
  have hpt : ∀ e ∈ (lead_contrib L P).filter (fun e => e.month = m),
      |pvalNum e.pct - e.lc / monthTotal L P m * 100| ≤ 1/200 := by
    intro e hee
    have hmem := List.mem_of_mem_filter hee
    have hm : e.month = m := by
      have := List.of_mem_filter hee
      simpa using this
    obtain ⟨_, hpct⟩ := lead_contrib_mem_spec hmem
    rw [hm] at hpct
    rw [hpct, (pct_cases e.lc (monthTotal L P m)).1 hT]
    exact round2_err _
  have hb := sum_sub_bound (fun e : LCRow => pvalNum e.pct)
    (fun e => e.lc / monthTotal L P m * 100)
    ((lead_contrib L P).filter (fun e => e.month = m)) hpt
  rw [h2] at hb
  exact hb

/-- Concrete input for the C5 witness: contributions 3 and 1, total 4,
shares 75% and 25%. -/
def c5L : List LeadRow :=
  [⟨[77], some [65], [76], [80], 1, 1, 1, 1, 1⟩,
   ⟨[77], some [66], [76], [81], 1, 1, 1, 1, 1⟩]

def c5P : List PdrRow := [⟨[80], 3, 1⟩, ⟨[81], 1, 1⟩]

/-- Witness for C5 at the concrete month `[77]`. -/
theorem C5_contribution_sums_witness :
    (((lead_contrib c5L c5P).filter (fun e => e.month = [77])).map
        (fun e => e.lc)).sum = monthTotal c5L c5P [77]
    ∧ (((lead_contrib c5L c5P).filter (fun e => e.month = [77])).map
        (fun e => e.lc / monthTotal c5L c5P [77] * 100)).sum = 100
    ∧ |(((lead_contrib c5L c5P).filter (fun e => e.month = [77])).map
        (fun e => pvalNum e.pct)).sum - 100|
      ≤ ((lead_contrib c5L c5P).filter (fun e => e.month = [77])).length / 200 :=
  C5_contribution_sums c5L c5P [77] (by
    norm_num [monthTotal, lead_contrib_base, total_contrib, groupByKey,
      lead_with_hours, lwhExpand, wcOf, leadKey, lwhKey, c5L, c5P,
      List.dedup_cons_of_mem, List.dedup_cons_of_not_mem,
      List.filter_cons, List.filterMap_cons, List.flatMap_cons])

/-! ## C6, C7: merge cardinality -/

theorem lead_contrib_countP (L : List LeadRow) (P : List PdrRow)
    (k : List Nat × List Nat) :
    (lead_contrib L P).countP (fun l => (l.month, l.qid) = k)
      = (lead_contrib_base L P).countP (fun e => e.1 = k) :=
  leftMerge_countP
    (fun e : (List Nat × List Nat) × ℚ => e.1.1)
    (fun t : List Nat × ℚ => t.1)
    mkLCRow
    (fun l : LCRow => (l.month, l.qid))
    (fun e : (List Nat × List Nat) × ℚ => e.1)
    (fun a b => Prod.mk.eta)
    (lead_contrib_base L P) (total_contrib L P)
    (fun k' => groupByKey_filter_le_one _ _ _ k') k

theorem lead_contrib_filter_le_one (L : List LeadRow) (P : List PdrRow)
    (k : List Nat × List Nat) :
    ((lead_contrib L P).filter (fun l => (l.month, l.qid) = k)).length ≤ 1 := by
  rw [← List.countP_eq_length_filter, lead_contrib_countP]
  unfold lead_contrib_base
  rw [groupByKey_countP]
  split <;> omega

theorem merged_countP (L : List LeadRow) (P : List PdrRow) (A : List AttRow)
    (k : List Nat × List Nat) :
    (merged L P A).countP (fun r => (r.month, r.qid) = k)
      = (monthly_core L).countP (fun e => e.1 = k) := by
  have h3 : (merged L P A).countP (fun r => (r.month, r.qid) = k)
      = (merged2 L P A).countP (fun e => e.1.1.1 = k) :=
    leftMerge_countP
      (fun e : (((List Nat × List Nat) × CoreAgg) × Option LCRow)
        × Option ((List Nat × List Nat) × AttAgg) => e.1.1.1)
      (fun p : (List Nat × List Nat) × ℕ => p.1)
      mkMergedRow
      (fun r : MergedRow => (r.month, r.qid))
      (fun e : (((List Nat × List Nat) × CoreAgg) × Option LCRow)
        × Option ((List Nat × List Nat) × AttAgg) => e.1.1.1)
      (fun a b => Prod.mk.eta)
      (merged2 L P A) (project_count L)
      (fun k' => groupByKey_filter_le_one _ _ _ k') k
  have h2 : (merged2 L P A).countP (fun e => e.1.1.1 = k)
      = (merged1 L P).countP (fun e => e.1.1 = k) :=
    leftMerge_countP
      (fun e : ((List Nat × List Nat) × CoreAgg) × Option LCRow => e.1.1)
      (fun a : (List Nat × List Nat) × AttAgg => a.1)
      Prod.mk
      (fun e : (((List Nat × List Nat) × CoreAgg) × Option LCRow)
        × Option ((List Nat × List Nat) × AttAgg) => e.1.1.1)
      (fun e : ((List Nat × List Nat) × CoreAgg) × Option LCRow => e.1.1)
      (fun a b => rfl)
      (merged1 L P) (attendance_agg A)
      (fun k' => groupByKey_filter_le_one _ _ _ k') k
  have h1 : (merged1 L P).countP (fun e => e.1.1 = k)
      = (monthly_core L).countP (fun e => e.1 = k) :=
    leftMerge_countP
      (fun e : (List Nat × List Nat) × CoreAgg => e.1)
      (fun l : LCRow => (l.month, l.qid))
      Prod.mk
      (fun e : ((List Nat × List Nat) × CoreAgg) × Option LCRow => e.1.1)
      (fun e : (List Nat × List Nat) × CoreAgg => e.1)
      (fun a b => rfl)
      (monthly_core L) (lead_contrib L P)
      (fun k' => lead_contrib_filter_le_one L P k') k
  exact (h3.trans h2).trans h1

theorem final_report_countP (L : List LeadRow) (P : List PdrRow) (A : List AttRow)
    (k : List Nat × List Nat) :
    (final_report L P A).countP (fun r => (r.month, r.qid) = k)
      = if k ∈ L.filterMap leadKey then 1 else 0 := by
  have h1 : (final_report L P A).countP (fun r => (r.month, r.qid) = k)
      = (merged L P A).countP (fun m => (m.month, m.qid) = k) := by
    unfold final_report
    rw [List.countP_map]
    rfl
  rw [h1, merged_countP]
  unfold monthly_core
  rw [groupByKey_countP leadKey coreAgg L k]
  by_cases hk : k ∈ L.filterMap leadKey
  · rw [if_pos hk, if_pos hk]
  · rw [if_neg hk, if_neg hk]

/-- The key column of `monthly_core` is the deduplicated list of
(Month, QAI_ID) pairs of the lead rows. -/
theorem monthly_core_keys (L : List LeadRow) :
    (monthly_core L).map Prod.fst = (L.filterMap leadKey).dedup := by
  unfold monthly_core groupByKey
  rw [List.map_map]
  exact (List.map_congr_left (fun a _ => rfl)).trans (List.map_id _)

/-- C6: every (Month, PersonID) pair of `MonthlyCore` appears exactly
once in `FinalReport`, and a pair that appears only in the attendance
source (with no lead record) never appears in `FinalReport` — the
left-anchored merges neither drop nor duplicate rows. -/
theorem C6_merge_cardinality (L : List LeadRow) (P : List PdrRow) (A : List AttRow)
    (k : List Nat × List Nat) :
    (k ∈ (monthly_core L).map Prod.fst →
      (final_report L P A).countP (fun r => (r.month, r.qid) = k) = 1)
    ∧ (k ∈ A.filterMap attKey → k ∉ (monthly_core L).map Prod.fst →
      (final_report L P A).countP (fun r => (r.month, r.qid) = k) = 0) := by
  constructor
  · intro hk
    rw [final_report_countP, if_pos]
    rw [monthly_core_keys] at hk
    exact List.mem_dedup.mp hk
  · intro _ hk
    rw [final_report_countP, if_neg]
    intro hmem
    exact hk (by rw [monthly_core_keys]; exact List.mem_dedup.mpr hmem)

/-- Concrete input for the C6 witness: one lead row for person `[65]`
and an attendance row for person `[66]` who has no lead record. -/
def c6L : List LeadRow := [⟨[74], some [65], [76], [80], 1, 1, 1, 1, 1⟩]

def c6P : List PdrRow := [⟨[80], 2, 3⟩]

def c6A : List AttRow := [⟨[74], some [66], 1, 1⟩]

/-- Witness for C6: person `[65]` appears exactly once in the final
report, the attendance-only person `[66]` not at all. -/
theorem C6_merge_cardinality_witness :
    (final_report c6L c6P c6A).countP
        (fun r => (r.month, r.qid) = ([74], [65])) = 1
    ∧ (final_report c6L c6P c6A).countP
        (fun r => (r.month, r.qid) = ([74], [66])) = 0 :=
  ⟨(C6_merge_cardinality c6L c6P c6A ([74], [65])).1 (by decide),
   (C6_merge_cardinality c6L c6P c6A ([74], [66])).2 (by decide) (by decide)⟩

/-- C7: a lead record whose project has no matching `pdr_df` row
expands to a single zero-filled row (PDR = 0, Project Hour = 0), its
weighted contribution to its group's `Lead_Contribution` is 0, yet the
record is never dropped: its (Month, PersonID) group is in
`MonthlyCore` with the quality metrics averaged normally, and appears
(exactly once) in `FinalReport`. -/
theorem C7_unmatched_project (L : List LeadRow) (P : List PdrRow) (A : List AttRow)
    (r : LeadRow) (i : List Nat) (hr : r ∈ L) (hq : r.qid = some i)
    (hnp : ∀ p ∈ P, p.project ≠ r.project) :
    lwhExpand P r = [⟨r, 0, 0⟩]
    ∧ ((lwhExpand P r).map wcOf).sum = 0
    ∧ (monthly_core L).find? (fun e => e.1 = (r.month, i))
        = some ((r.month, i),
            coreAgg (L.filter (fun x => leadKey x = some (r.month, i))))
    ∧ (final_report L P A).countP
        (fun fr => (fr.month, fr.qid) = (r.month, i)) = 1 := by
  have hfil : P.filter (fun p => p.project = r.project) = [] :=
    List.filter_eq_nil_iff.mpr (fun p hp => by simpa using hnp p hp)
  have hexp : lwhExpand P r = [⟨r, 0, 0⟩] := by
    unfold lwhExpand
    rw [hfil]
  have hkmem : (r.month, i) ∈ L.filterMap leadKey :=
    List.mem_filterMap.mpr ⟨r, hr, by simp [leadKey, hq]⟩
  refine ⟨hexp, ?_, ?_, ?_⟩
  · rw [hexp]
    simp [wcOf]
  · unfold monthly_core
    exact groupByKey_find? _ _ _ _ hkmem
  · rw [final_report_countP, if_pos hkmem]

/-- Concrete input for the C7 witness: the single lead row's project
`[80]` is absent from the project-hours table (which only has `[81]`). -/
def c7L : List LeadRow := [⟨[74], some [65], [76], [80], 1, 1, 1, 1, 1⟩]

def c7P : List PdrRow := [⟨[81], 2, 3⟩]

def c7A : List AttRow := []

/-- Witness for C7 at the concrete row. -/
theorem C7_unmatched_project_witness :
    lwhExpand c7P ⟨[74], some [65], [76], [80], 1, 1, 1, 1, 1⟩
        = [⟨⟨[74], some [65], [76], [80], 1, 1, 1, 1, 1⟩, 0, 0⟩]
    ∧ ((lwhExpand c7P ⟨[74], some [65], [76], [80], 1, 1, 1, 1, 1⟩).map wcOf).sum = 0
    ∧ (monthly_core c7L).find? (fun e => e.1 = ([74], [65]))
        = some (([74], [65]),
            coreAgg (c7L.filter (fun x => leadKey x = some ([74], [65]))))
    ∧ (final_report c7L c7P c7A).countP
        (fun fr => (fr.month, fr.qid) = ([74], [65])) = 1 :=
  C7_unmatched_project c7L c7P c7A ⟨[74], some [65], [76], [80], 1, 1, 1, 1, 1⟩
    [65] (by decide) rfl (by decide)

/-! ## C1: the maximal Final KPI Score -/

/-- Membership in a left merge comes from a left row combined with
`none` or with some matching right row. -/
theorem mem_leftMerge {α β γ κ : Type} [DecidableEq κ] {ka : α → κ} {kb : β → κ}
    {f : α → Option β → γ} {xs : List α} {ys : List β} {c : γ}
    (h : c ∈ leftMerge ka kb f xs ys) :
    ∃ a, a ∈ xs ∧ (c = f a none ∨ ∃ b ∈ ys, c = f a (some b)) := by
  unfold leftMerge at h
  rcases List.mem_flatMap.mp h with ⟨a, ha, hc⟩
  refine ⟨a, ha, ?_⟩
  rcases hms : ys.filter (fun b => kb b = ka a) with _ | ⟨b, rest⟩
  · rw [hms] at hc
    exact Or.inl (List.mem_singleton.mp hc)
  · rw [hms] at hc
    rcases List.mem_map.mp hc with ⟨b', hb', hcb⟩
    have hbf : b' ∈ ys.filter (fun b => kb b = ka a) := by
      rw [hms]
      exact hb'
    exact Or.inr ⟨b', List.mem_of_mem_filter hbf, hcb.symm⟩

/-- The `Final KPI Score` cell of every merged row is the weighted
formula of lines 208-226 applied to that row's eight input metrics. -/
theorem merged_finalKpi {L : List LeadRow} {P : List PdrRow} {A : List AttRow}
    {row : MergedRow} (h : row ∈ merged L P A) :
    row.finalKpi = final_kpi_score row.quality row.timeliness row.documentation
      row.communication row.discipline row.contribRating row.attendance
      row.training := by
  unfold merged at h
  rcases mem_leftMerge h with ⟨e, _, hrow | ⟨pc, _, hrow⟩⟩
  · subst hrow
    rfl
  · subst hrow
    rfl

/-- The fractional part arising when rounding 1.35625 to 2 decimals. -/
theorem fract_of_scoresum : Int.fract ((1085 : ℚ)/8) = 5/8 := by
  rw [Int.fract]
  norm_num

/-- Concrete input for C1: a merged row whose input metrics take
exactly the claimed values Quality = 1.0, Timeliness = 0.5,
Documentation = 0.5, Communication = 0.5, Discipline = 0.375,
Contribution_Rating = 5, Attendance = 0.375, Training = 1.0 (the single
person holds 100 % of the month's contribution, so the rating is 5). -/
def c1L : List LeadRow := [⟨[74], some [65], [76], [80], 1, 1/2, 1/2, 1/2, 3/8⟩]

def c1P : List PdrRow := [⟨[80], 1, 1⟩]

def c1A : List AttRow := [⟨[74], some [65], 3/8, 1⟩]

/-- C1 (counterexample): on the input above the merged row's metrics
are exactly the values listed in the claim, yet its `Final KPI Score`
is 1.36 (= 34/25), not 5.00: the listed values are the maxima of the
*weighted sub-scores*, not of the input metrics. -/
theorem C1_counterexample :
    (merged c1L c1P c1A).map (fun r =>
        (r.quality, r.timeliness, r.documentation, r.communication, r.discipline,
         r.contribRating, r.attendance, r.training, r.finalKpi))
      = [(1, 1/2, 1/2, 1/2, 3/8, 5, 3/8, 1, 34/25)]
    ∧ (34/25 : ℚ) ≠ 5 := by
  constructor
  · norm_num [merged, merged2, merged1, monthly_core, project_count, attendance_agg,
      lead_contrib, lead_contrib_base, total_contrib, groupByKey, leftMerge,
      lead_with_hours, lwhExpand, wcOf, mkLCRow, mkMergedRow, coreAgg, listMean,
      joinProjects, sortLex, insertSorted, lexLe, final_kpi_score, round2,
      roundHalfEven, fract_of_scoresum, contribution_to_rating, pvLeB, pvDiv,
      pvMulQ, pvRound2, pvFillna0, leadKey, lwhKey, attKey, c1L, c1P, c1A,
      List.dedup_cons_of_mem, List.dedup_cons_of_not_mem,
      List.filter_cons, List.filterMap_cons, List.flatMap_cons, List.find?_cons]
  · norm_num

/-- C1 (amended): for every merged row whose eight input metrics all
equal 5 — each metric at its actual documented maximum, so that the
weighted sub-scores reach 1.00, 0.50, 0.50, 0.50, 0.375, 0.75, 0.375
and 1.00 — the `Final KPI Score` equals 5.00. -/
theorem C1_max_score (L : List LeadRow) (P : List PdrRow) (A : List AttRow)
    (n : ℕ) (hn : n < (merged L P A).length) (row : MergedRow)
    (hrow : row = (merged L P A).get ⟨n, hn⟩)
    (h1 : row.quality = 5) (h2 : row.timeliness = 5) (h3 : row.documentation = 5)
    (h4 : row.communication = 5) (h5 : row.discipline = 5)
    (h6 : row.contribRating = 5) (h7 : row.attendance = 5)
    (h8 : row.training = 5) :
    row.finalKpi = 5 := by
  have hmem : row ∈ merged L P A := by
    rw [hrow]
    exact List.get_mem _ _ hn
  rw [merged_finalKpi hmem, h1, h2, h3, h4, h5, h6, h7, h8]
  norm_num [final_kpi_score, round2, roundHalfEven]

/-- Concrete input for the C1 witness: every metric at its maximum 5. -/
def c1wL : List LeadRow := [⟨[74], some [65], [76], [80], 5, 5, 5, 5, 5⟩]

def c1wP : List PdrRow := [⟨[80], 1, 1⟩]

def c1wA : List AttRow := [⟨[74], some [65], 5, 5⟩]

theorem c1w_len : 0 < (merged c1wL c1wP c1wA).length := by decide

/-- The merged row of the witness input has all eight metrics at 5. -/
theorem c1w_fields :
    ((merged c1wL c1wP c1wA).get ⟨0, c1w_len⟩).quality = 5
    ∧ ((merged c1wL c1wP c1wA).get ⟨0, c1w_len⟩).timeliness = 5
    ∧ ((merged c1wL c1wP c1wA).get ⟨0, c1w_len⟩).documentation = 5
    ∧ ((merged c1wL c1wP c1wA).get ⟨0, c1w_len⟩).communication = 5
    ∧ ((merged c1wL c1wP c1wA).get ⟨0, c1w_len⟩).discipline = 5
    ∧ ((merged c1wL c1wP c1wA).get ⟨0, c1w_len⟩).contribRating = 5
    ∧ ((merged c1wL c1wP c1wA).get ⟨0, c1w_len⟩).attendance = 5
    ∧ ((merged c1wL c1wP c1wA).get ⟨0, c1w_len⟩).training = 5 := by
  norm_num [merged, merged2, merged1, monthly_core, project_count, attendance_agg,
    lead_contrib, lead_contrib_base, total_contrib, groupByKey, leftMerge,
    lead_with_hours, lwhExpand, wcOf, mkLCRow, mkMergedRow, coreAgg, listMean,
    joinProjects, sortLex, insertSorted, lexLe, round2, roundHalfEven,
    contribution_to_rating, pvLeB, pvDiv, pvMulQ, pvRound2, pvFillna0,
    leadKey, lwhKey, attKey, c1wL, c1wP, c1wA, List.get,
    List.dedup_cons_of_mem, List.dedup_cons_of_not_mem,
    List.filter_cons, List.filterMap_cons, List.flatMap_cons, List.find?_cons]

/-- Witness for C1 (amended): the all-5 row scores exactly 5.00. -/
theorem C1_max_score_witness :
    ((merged c1wL c1wP c1wA).get ⟨0, c1w_len⟩).finalKpi = 5 :=
  C1_max_score c1wL c1wP c1wA 0 c1w_len _ rfl
    c1w_fields.1 c1w_fields.2.1 c1w_fields.2.2.1 c1w_fields.2.2.2.1
    c1w_fields.2.2.2.2.1 c1w_fields.2.2.2.2.2.1 c1w_fields.2.2.2.2.2.2.1
    c1w_fields.2.2.2.2.2.2.2
